import Mathlib

/-!
Shallow embedding of the Strix-Swarm simulation core and verification of its
specification claims.

The embedding follows `src/core/conway_grid.py`, `src/core/embedding_layer.py`,
`src/core/embedding_grid.py` and `src/api/conway_runner.py`. Machine floats are
idealised as real numbers; numpy arrays become functions; fallible numpy
indexing and Python assertions become `Except` / explicit error results.
-/

namespace StrixSwarm

/-- A Conway grid: Boolean plane standing for the `uint8` 0/1 numpy array
`ConwayGrid.grid`, indexed `grid[y, x]` (row first). Only coordinates below the
grid size are meaningful; the stepper only ever reads coordinates reduced
modulo the size. -/
abbrev Grid := Nat → Nat → Bool

/-- Toroidal index wrap: Python `a % N` on a possibly negative integer operand
(Python `%` on ints returns a value in `[0, N)` for `N > 0`, as does `Int.emod`
for a positive modulus). -/
def wrap (N : Nat) (a : Int) : Nat := (a % (N : Int)).toNat

/-- The eight Moore-neighbour offsets `(dx, dy)` in the order generated by
`ConwayGrid.get_neighbors`: `dx` in `[-1, 0, 1]` outer, `dy` inner, the
centre `(0, 0)` skipped. -/
def mooreOffsets : List (Int × Int) :=
  [(-1, -1), (-1, 0), (-1, 1), (0, -1), (0, 1), (1, -1), (1, 0), (1, 1)]

/-- `ConwayGrid.get_neighbors(x, y)`: Moore-neighbourhood live count with
wraparound, reading `grid[(y+dy) % N, (x+dx) % N]` and excluding the centre. -/
def get_neighbors (N : Nat) (g : Grid) (x y : Nat) : Nat :=
  mooreOffsets.foldl
    (fun c d =>
      c + (if g (wrap N ((y : Int) + d.2)) (wrap N ((x : Int) + d.1)) then 1 else 0))
    0

/-- The 3x3 kernel built in `ConwayGrid.step`: all ones with the centre
`kernel[1, 1]` zeroed. -/
def kernel (a b : Nat) : Nat := if a = 1 ∧ b = 1 then 0 else 1

/-- Neighbour counts as computed in `ConwayGrid.step` by
`convolve2d(grid, kernel, mode same, boundary wrap)`. For a 3x3 kernel the
same-mode circular convolution is
`out[y, x] = sum over a, b < 3 of kernel[a, b] * grid[(y+1-a) mod N, (x+1-b) mod N]`. -/
def convNeighbors (N : Nat) (g : Grid) (y x : Nat) : Nat :=
  (List.range 3).foldl
    (fun c a =>
      (List.range 3).foldl
        (fun c2 b =>
          c2 + kernel a b *
            (if g (wrap N ((y : Int) + 1 - a)) (wrap N ((x : Int) + 1 - b)) then 1 else 0))
        c)
    0

/-- One cell of the next grid computed by `ConwayGrid.step`: `new_grid` starts
at zero, the birth mask `(grid == 0) & (neighbors == 3)` and the survival mask
`(grid == 1) & ((neighbors == 2) | (neighbors == 3))` set it to one. -/
def stepCell (N : Nat) (g : Grid) (y x : Nat) : Bool :=
  let nb := convNeighbors N g y x
  if (g y x = false ∧ nb = 3) ∨ (g y x = true ∧ (nb = 2 ∨ nb = 3)) then true else false

/-- The full next grid of `ConwayGrid.step`, a pure function of the pre-step
snapshot `g`. -/
def stepGrid (N : Nat) (g : Grid) : Grid := fun y x => stepCell N g y x

/-- The `CellDelta` dataclass of `conway_grid.py`. -/
structure CellDelta where
  x : Nat
  y : Nat
  alive : Bool
deriving DecidableEq, Repr

/-- The delta list built by `ConwayGrid.step` from
`np.argwhere(new_grid != self.grid)`: row-major traversal (increasing `y`,
then increasing `x`), one record per changed cell carrying the new value. -/
def stepDeltas (N : Nat) (g : Grid) : List CellDelta :=
  (List.range N).flatMap fun y =>
    (List.range N).filterMap fun x =>
      if stepCell N g y x ≠ g y x then some ⟨x, y, stepCell N g y x⟩ else none

/-- `ConwayGrid.step`: returns the delta list and replaces the stored grid with
the computed next state. -/
def step (N : Nat) (g : Grid) : Grid × List CellDelta :=
  (stepGrid N g, stepDeltas N g)

/-- Numpy indexing error raised when an index is at or beyond the axis length. -/
inductive NpError
  | indexError
deriving DecidableEq

/-- One numpy element assignment `grid[y, x] = 1` with bounds checking: numpy
raises `IndexError` for a non-negative index at or past the axis length, no
modulo wrapping is applied. -/
def setItem (N : Nat) (g : Grid) (y x : Nat) : Except NpError Grid :=
  if y < N ∧ x < N then
    .ok fun y2 x2 => if y2 = y ∧ x2 = x then true else g y2 x2
  else
    .error .indexError

/-- `ConwayGrid.seed_glider(x, y)`: performs exactly five element assignments
`grid[y, x+1]`, `grid[y+1, x+2]`, `grid[y+2, x]`, `grid[y+2, x+1]`,
`grid[y+2, x+2] = 1` on the existing grid; it neither clears the grid first nor
reduces any coordinate modulo the size. -/
def seed_glider (N : Nat) (g : Grid) (x y : Nat) : Except NpError Grid := do
  let g1 ← setItem N g y (x + 1)
  let g2 ← setItem N g1 (y + 1) (x + 2)
  let g3 ← setItem N g2 (y + 2) x
  let g4 ← setItem N g3 (y + 2) (x + 1)
  let g5 ← setItem N g4 (y + 2) (x + 2)
  return g5

/-- Strict row-major order on cell deltas: increasing row, then increasing
column within a row. -/
def deltaBefore (a b : CellDelta) : Prop :=
  a.y < b.y ∨ (a.y = b.y ∧ a.x < b.x)

/-- An embedding vector: a numpy float array of dimension `n`, idealised as a
real-valued function. The code fixes `n = 384`; the embedding keeps the
dimension a parameter, exactly as `EmbeddingState.__init__(cell_idx, dim=384)`
does. -/
abbrev Vec (n : Nat) := Fin n → ℝ

/-- `np.dot`. -/
noncomputable def dot {n : Nat} (v w : Vec n) : ℝ := ∑ i, v i * w i

/-- `np.linalg.norm`: the L2 norm, square root of the sum of squares. -/
noncomputable def l2norm {n : Nat} (v : Vec n) : ℝ := Real.sqrt (∑ i, v i ^ 2)

/-- The `DeltaPayload` dataclass of `embedding_layer.py`. -/
structure DeltaPayload (n : Nat) where
  id : String
  vector : Vec n
  l2_norm : ℝ
  created_tick : Nat

/-- Per-cell embedding state, the fields of `EmbeddingState`. The history is
the `deque(maxlen=4)`, oldest entry first (Python appends on the right). -/
structure EmbeddingState (n : Nat) where
  cell_idx : Nat
  vector : Vec n
  history : List (Vec n)
  pending_delta : Option (DeltaPayload n)
  deltas_received : Nat
  deltas_passed : Nat

/-- `EmbeddingState.__init__`: zero vector, a copy of it as the single history
entry, no pending delta, zeroed counters. -/
def initState (n : Nat) (idx : Nat) : EmbeddingState n :=
  ⟨idx, fun _ => 0, [fun _ => 0], none, 0, 0⟩

/-- The failure of the `assert self.pending_delta is None` guard in
`hold_delta` (the double-hold condition the spec names `CellBusy`). -/
inductive HoldError
  | cellBusy
deriving DecidableEq

/-- `EmbeddingState.hold_delta`: asserts no delta is pending, else stores the
payload. The assertion failure is modelled as the busy error together with the
unmodified state (a raised assertion mutates nothing). -/
def hold_delta {n : Nat} (s : EmbeddingState n) (p : DeltaPayload n) :
    Option HoldError × EmbeddingState n :=
  match s.pending_delta with
  | some _ => (some .cellBusy, s)
  | none => (none, { s with pending_delta := some p })

/-- `EmbeddingState.pass_delta`: reads and clears the pending slot, counts the
pass only when a payload was actually held, returns the payload. -/
def pass_delta {n : Nat} (s : EmbeddingState n) :
    Option (DeltaPayload n) × EmbeddingState n :=
  let payload := s.pending_delta
  (payload,
    { s with
      pending_delta := none
      deltas_passed := if payload.isSome then s.deltas_passed + 1 else s.deltas_passed })

/-- One append to a `deque(maxlen := 4)`: the oldest (leftmost) entry is
evicted when the deque is full. -/
def pushHistory {n : Nat} (h : List (Vec n)) (v : Vec n) : List (Vec n) :=
  if (h ++ [v]).length > 4 then (h ++ [v]).tail else h ++ [v]

/-- `EmbeddingState.receive_delta(payload, alpha=0.1)`: saves the old vector to
history, adds `alpha * payload.vector`, divides by the L2 norm when that norm
exceeds `1e-8`, and counts the reception. -/
noncomputable def receive_delta {n : Nat} (s : EmbeddingState n)
    (p : DeltaPayload n) (alpha : ℝ) : EmbeddingState n :=
  let hist := pushHistory s.history s.vector
  let w : Vec n := fun i => s.vector i + alpha * p.vector i
  let nrm := l2norm w
  { s with
    history := hist
    vector := if nrm > 1e-8 then (fun i => w i / nrm) else w
    deltas_received := s.deltas_received + 1 }

/-- `EmbeddingState.cosine_similarity(other)`: zero when either norm is below
`1e-8`, otherwise the normalised dot product. -/
noncomputable def cosineSim {n : Nat} (v w : Vec n) : ℝ :=
  if l2norm v < 1e-8 ∨ l2norm w < 1e-8 then 0 else dot v w / (l2norm v * l2norm w)

/-- `EmbeddingState.cosine_with_previous`: `1.0` when the history holds fewer
than two entries, otherwise the cosine similarity of the current vector with
`history[-2]`, the second entry from the right. -/
noncomputable def cosine_with_previous {n : Nat} (s : EmbeddingState n) : ℝ :=
  if s.history.length < 2 then 1
  else cosineSim s.vector (s.history.getD (s.history.length - 2) (fun _ => 0))

/-- The `PassEvent` record of `embedding_grid.py`. -/
structure PassEvent where
  tick : Nat
  from_idx : Nat
  to_idx : Nat
  payload_id : String
  payload_norm : ℝ
  similarity : ℝ
  seed : Option Nat

/-- The `EmbeddingGrid` object: `size * size` states (modelled as a function
from flat index, meaningful below `size * size`), the routing weights set to
`0.7` and `0.3` at construction, the append-only pass-event log, and the tick
counter. -/
structure EmbeddingGrid (n : Nat) where
  size : Nat
  states : Nat → EmbeddingState n
  alpha_cosine : ℝ
  alpha_energy : ℝ
  pass_events : List PassEvent
  tick : Nat

/-- `EmbeddingGrid.__init__(size, embedding_dim)`. -/
def initGrid (n size : Nat) : EmbeddingGrid n :=
  ⟨size, fun i => initState n i, 0.7, 0.3, [], 0⟩

/-- `EmbeddingGrid.get_neighbors(idx)`: the 8 flat Moore-neighbour indices,
`dx` outer and `dy` inner, each coordinate wrapped modulo `size`, flat index
`ny * size + nx`. -/
def embNeighbors (size idx : Nat) : List Nat :=
  mooreOffsets.map fun d =>
    wrap size ((idx / size : Int) + d.2) * size + wrap size ((idx % size : Int) + d.1)

/-- `np.argmax` on a Python list of scores: index of the greatest value, first
occurrence on ties. Auxiliary loop: `i` is the index of the head of the
remaining list, `bi`/`bv` the best index and value so far. -/
noncomputable def argmaxAux : List ℝ → Nat → Nat → ℝ → Nat
  | [], _, bi, _ => bi
  | v :: rest, i, bi, bv =>
      if bv < v then argmaxAux rest (i + 1) i v else argmaxAux rest (i + 1) bi bv

/-- `np.argmax` (empty input never occurs: the neighbour list has 8 entries). -/
noncomputable def argmaxIdx : List ℝ → Nat
  | [] => 0
  | v :: rest => argmaxAux rest 1 0 v

/-- The score list built in `EmbeddingGrid.route_delta`: for each candidate
neighbour, `alpha_cosine * cos_sim + alpha_energy * energy` where the energy is
read from the field at the candidate coordinates (`energy_field[ny, nx]`) or is
the neutral `0.5` when no field is supplied. -/
noncomputable def routeScores {n : Nat} (g : EmbeddingGrid n) (p : DeltaPayload n)
    (energy_field : Option (Nat → Nat → ℝ)) (nbrs : List Nat) : List ℝ :=
  nbrs.map fun j =>
    let cos_sim := cosineSim (g.states j).vector p.vector
    let energy :=
      match energy_field with
      | some efield => efield (j / g.size) (j % g.size)
      | none => 0.5
    g.alpha_cosine * cos_sim + g.alpha_energy * energy

/-- `EmbeddingGrid.route_delta(from_idx, payload, energy_field)`: argmax over
the neighbour scores, returning the chosen neighbour index and the cosine
similarity of its current vector with the payload. -/
noncomputable def route_delta {n : Nat} (g : EmbeddingGrid n) (from_idx : Nat)
    (p : DeltaPayload n) (energy_field : Option (Nat → Nat → ℝ)) : Nat × ℝ :=
  let nbrs := embNeighbors g.size from_idx
  let chosen := nbrs.getD (argmaxIdx (routeScores g p energy_field nbrs)) 0
  (chosen, cosineSim (g.states chosen).vector p.vector)

/-- `EmbeddingGrid.inject_delta(cell_idx, vector, payload_id)`: builds the
payload (computing its L2 norm, stamping the current tick) and holds it at the
target cell; a failing hold leaves the grid untouched. -/
noncomputable def inject_delta {n : Nat} (g : EmbeddingGrid n) (cell_idx : Nat)
    (vector : Vec n) (payload_id : String) : Option HoldError × EmbeddingGrid n :=
  let payload : DeltaPayload n := ⟨payload_id, vector, l2norm vector, g.tick⟩
  match hold_delta (g.states cell_idx) payload with
  | (some e, _) => (some e, g)
  | (none, s2) =>
      (none, { g with states := fun j => if j = cell_idx then s2 else g.states j })

/-- The cells holding a pending delta, in increasing index order: the list
comprehension `[i for i, state in enumerate(self.states) if state.pending_delta
is not None]` at the top of `EmbeddingGrid.step`. -/
def pendingCells {n : Nat} (g : EmbeddingGrid n) : List Nat :=
  (List.range (g.size * g.size)).filter fun i => (g.states i).pending_delta.isSome

/-- The body of the `for from_idx in pending_cells` loop of
`EmbeddingGrid.step`: pass the delta, route it on the current (already
partially updated) grid, deliver it with the default learning rate `0.1`,
record one `PassEvent` carrying the tick, endpoints, payload id and norm, and
the logged similarity. -/
noncomputable def stepLoop {n : Nat} (energy_field : Option (Nat → Nat → ℝ)) :
    EmbeddingGrid n → List Nat → List PassEvent × EmbeddingGrid n
  | g, [] => ([], g)
  | g, i :: rest =>
      let pr := pass_delta (g.states i)
      let g1 : EmbeddingGrid n :=
        { g with states := fun j => if j = i then pr.2 else g.states j }
      match pr.1 with
      | none => stepLoop energy_field g1 rest
      | some payload =>
          let r := route_delta g1 i payload energy_field
          let toState := receive_delta (g1.states r.1) payload 0.1
          let g2 : EmbeddingGrid n :=
            { g1 with states := fun j => if j = r.1 then toState else g1.states j }
          let ev : PassEvent := ⟨g.tick, i, r.1, payload.id, payload.l2_norm, r.2, none⟩
          let res := stepLoop energy_field g2 rest
          (ev :: res.1, res.2)

/-- `EmbeddingGrid.step(energy_field)`: snapshot the pending cells, run the
loop, append the batch to the pass-event log, advance the tick, return the
batch. -/
noncomputable def embStep {n : Nat} (g : EmbeddingGrid n)
    (energy_field : Option (Nat → Nat → ℝ)) : List PassEvent × EmbeddingGrid n :=
  let r := stepLoop energy_field g (pendingCells g)
  (r.1, { r.2 with pass_events := r.2.pass_events ++ r.1, tick := r.2.tick + 1 })

/-- The `toggle_cell` branch of `ConwayRunner.handle_command`: both coordinates
present and inside the hardcoded `0 <= v < 8` bounds flip the cell; otherwise
the branch does nothing. The branch never sets a response, so the handler
returns `None` to the submitter either way. -/
def handle_toggle_cell (g : Grid) (x y : Option Int) : Grid × Option String :=
  match x, y with
  | some xv, some yv =>
      if 0 ≤ xv ∧ xv < 8 ∧ 0 ≤ yv ∧ yv < 8 then
        ((fun y2 x2 =>
            if y2 = yv.toNat ∧ x2 = xv.toNat then !g y2 x2 else g y2 x2), none)
      else (g, none)
  | _, _ => (g, none)

/-- Concrete 1-dimensional payload used by the evaluation examples. -/
noncomputable def exPayload : DeltaPayload 1 := ⟨"p", fun _ => 1, 1, 0⟩

/-- A fresh cell after two receptions of `exPayload` at learning rate 1: its
history is `[0, 0, 1]` and its vector is the unit vector `1`. -/
noncomputable def exState2 : EmbeddingState 1 :=
  receive_delta (receive_delta (initState 1 0) exPayload 1) exPayload 1

/-- A 1-dimensional cell state that already holds a pending payload. -/
def exBusyState : EmbeddingState 1 :=
  ⟨0, fun _ => 0, [fun _ => 0], some ⟨"q", fun _ => 0, 0, 0⟩, 0, 0⟩

/-- A 1x1 grid whose single cell already holds a pending payload. -/
def exBusyGrid : EmbeddingGrid 1 :=
  ⟨1, fun _ => exBusyState, 0.7, 0.3, [], 0⟩

theorem conv_eq_moore (N : Nat) (g : Grid) (y x : Nat) :
    convNeighbors N g y x = get_neighbors N g x y := by
  show (List.range 3).foldl _ 0 = _
  have h3 : List.range 3 = [0, 1, 2] := by decide
  simp only [convNeighbors, get_neighbors, mooreOffsets, h3, List.foldl, kernel]
  norm_num
  ring_nf

/-- C1: `step()` computes the next value of each cell by applying the B3/S23 rule to
the Moore-neighbourhood live count of the pre-step snapshot, taken with
toroidal wraparound and excluding the cell itself. The next grid `stepGrid` is
by construction a pure function of the snapshot `g` alone, so no decision can
observe an already-updated neighbour and the result is independent of any
iteration order. -/
theorem step_applies_b3s23_to_snapshot (N : Nat) (g : Grid) (x y : Nat) :
    stepGrid N g y x =
      (if g y x then decide (get_neighbors N g x y = 2 ∨ get_neighbors N g x y = 3)
       else decide (get_neighbors N g x y = 3)) := by
  cases hg : g y x <;>
    simp [stepGrid, stepCell, hg, conv_eq_moore]

theorem mem_stepDeltas (N : Nat) (g : Grid) (d : CellDelta) :
    d ∈ stepDeltas N g ↔
      d.x < N ∧ d.y < N ∧ stepGrid N g d.y d.x ≠ g d.y d.x ∧
        d.alive = stepGrid N g d.y d.x := by
  cases d with
  | mk dx dy da =>
    simp only [stepDeltas, stepGrid, List.mem_flatMap, List.mem_filterMap, List.mem_range]
    constructor
    · rintro ⟨y, hy, x, hx, hsome⟩
      by_cases hne : stepCell N g y x ≠ g y x
      · rw [if_pos hne] at hsome
        obtain ⟨hx2, hy2, ha⟩ := CellDelta.mk.injEq .. ▸ (Option.some.injEq _ _ ▸ hsome)
        subst hx2; subst hy2; subst ha
        exact ⟨hx, hy, hne, rfl⟩
      · rw [if_neg hne] at hsome
        exact absurd hsome (by simp)
    · rintro ⟨hx, hy, hne, ha⟩
      exact ⟨dy, hy, dx, hx, by rw [if_pos hne]; subst ha; rfl⟩

/-- C2: the list returned by `step()` contains exactly one `CellDelta` for each
cell whose value changed (and none for unchanged cells), each record carries
the new value, the list is strictly ordered by increasing row then increasing
column (so each coordinate appears at most once), and the grid returned by the
call is exactly the computed next state. -/
theorem step_deltas_exact_and_ordered (N : Nat) (g : Grid) :
    (step N g).1 = stepGrid N g ∧
    (∀ d : CellDelta,
      d ∈ (step N g).2 ↔
        d.x < N ∧ d.y < N ∧ stepGrid N g d.y d.x ≠ g d.y d.x ∧
          d.alive = stepGrid N g d.y d.x) ∧
    List.Pairwise deltaBefore (step N g).2 := by
  refine ⟨rfl, fun d => mem_stepDeltas N g d, ?_⟩
  show List.Pairwise deltaBefore (stepDeltas N g)
  rw [stepDeltas, List.pairwise_flatMap]
  constructor
  · intro y _
    rw [List.pairwise_filterMap]
    refine List.Pairwise.imp ?_ (List.pairwise_lt_range N)
    intro x x2 hlt b hb b2 hb2
    rcases Classical.em (stepCell N g y x ≠ g y x) with h | h
    · rcases Classical.em (stepCell N g y x2 ≠ g y x2) with h2 | h2
      · rw [if_pos h] at hb; rw [if_pos h2] at hb2
        cases hb; cases hb2
        exact Or.inr ⟨rfl, hlt⟩
      · rw [if_neg h2] at hb2; cases hb2
    · rw [if_neg h] at hb; cases hb
  · refine List.Pairwise.imp ?_ (List.pairwise_lt_range N)
    intro y y2 hlt b hb b2 hb2
    rw [List.mem_filterMap] at hb hb2
    obtain ⟨x, _, hx⟩ := hb
    obtain ⟨x2, _, hx2⟩ := hb2
    rcases Classical.em (stepCell N g y x ≠ g y x) with h | h
    · rcases Classical.em (stepCell N g y2 x2 ≠ g y2 x2) with h2 | h2
      · rw [if_pos h] at hx; rw [if_pos h2] at hx2
        cases hx; cases hx2
        exact Or.inl hlt
      · rw [if_neg h2] at hx2; cases hx2
    · rw [if_neg h] at hx; cases hx

/-- C3: evaluation of `seed_glider` at the inputs where the claim fails. At
origin `(6, 6)` on an 8x8 grid the second write indexes column `8` without any
modulo reduction, so the call raises `IndexError` instead of wrapping the
pattern; and seeding at origin `(0, 0)` on a grid holding a live cell at
`(5, 5)` leaves that cell alive, so the grid is not cleared first and more
than five cells can be live after seeding. -/
theorem seed_glider_no_wrap_no_clear :
    seed_glider 8 (fun _ _ => false) 6 6 = .error NpError.indexError ∧
    ((seed_glider 8 (fun y2 x2 => decide (y2 = 5 ∧ x2 = 5)) 0 0).toOption.map
        (fun g => g 5 5)) = some true := by
  constructor <;> rfl

/-- C4: `hold` on a cell that already holds a pending payload fails with the
busy error and returns the state completely unchanged (in particular the
existing pending payload survives), and `inject_delta`, which calls `hold` on
the target cell, likewise fails and leaves the whole grid unchanged. -/
theorem hold_and_inject_fail_when_busy (n : Nat) (s : EmbeddingState n)
    (p q : DeltaPayload n) (g : EmbeddingGrid n) (i : Nat) (v : Vec n)
    (pid : String) (hs : s.pending_delta = some q)
    (hg : (g.states i).pending_delta = some q) :
    hold_delta s p = (some HoldError.cellBusy, s) ∧
    inject_delta g i v pid = (some HoldError.cellBusy, g) := by
  constructor
  · simp [hold_delta, hs]
  · simp [inject_delta, hold_delta, hg]

/-- Witness for C4: the busy cell example state and grid trigger both
failures. -/
theorem hold_and_inject_fail_when_busy_example :
    exBusyState.pending_delta = some ⟨"q", fun _ => 0, 0, 0⟩ ∧
    (exBusyGrid.states 0).pending_delta = some ⟨"q", fun _ => 0, 0, 0⟩ ∧
    (hold_delta exBusyState ⟨"p", fun _ => 0, 0, 0⟩ =
        (some HoldError.cellBusy, exBusyState) ∧
      inject_delta exBusyGrid 0 (fun _ => 0) "p2" =
        (some HoldError.cellBusy, exBusyGrid)) :=
  ⟨rfl, rfl,
    hold_and_inject_fail_when_busy 1 exBusyState ⟨"p", fun _ => 0, 0, 0⟩
      ⟨"q", fun _ => 0, 0, 0⟩ exBusyGrid 0 (fun _ => 0) "p2" rfl rfl⟩

/-- C10: `pass` on a cell with no pending payload returns none and is a
complete no-op: the returned state is the input state, so the pending slot
stays empty, the pass counter is not incremented, and vector, history and
reception counter are untouched. -/
theorem pass_without_pending_is_noop (n : Nat) (s : EmbeddingState n)
    (h : s.pending_delta = none) : pass_delta s = (none, s) := by
  cases s with
  | mk a b c d e f =>
    simp only at h
    subst h
    simp [pass_delta]

/-- Witness for C10: a freshly constructed cell has nothing pending and
passing is a no-op on it. -/
theorem pass_without_pending_is_noop_example :
    (initState 1 0).pending_delta = none ∧
    pass_delta (initState 1 0) = (none, initState 1 0) :=
  ⟨rfl, pass_without_pending_is_noop 1 (initState 1 0) rfl⟩

theorem pushHistory_getLast {n : Nat} (h : List (Vec n)) (v : Vec n) :
    (pushHistory h v).getLast? = some v := by
  unfold pushHistory
  split
  · cases h with
    | nil => simp_all
    | cons a t => simp [List.getLast?_concat]
  · simp [List.getLast?_concat]

theorem l2norm_unit_of_pos {n : Nat} (w : Vec n) (hw : 0 < l2norm w) :
    l2norm (fun i => w i / l2norm w) = 1 := by
  have hsq : l2norm w ^ 2 = ∑ i, w i ^ 2 := Real.sq_sqrt (by positivity)
  have hne : l2norm w ^ 2 ≠ 0 := pow_ne_zero 2 (ne_of_gt hw)
  have hdiv : ∑ i, (w i / l2norm w) ^ 2 = 1 := by
    calc ∑ i, (w i / l2norm w) ^ 2
        = (∑ i, w i ^ 2) / l2norm w ^ 2 := by
          rw [Finset.sum_div]
          refine Finset.sum_congr rfl fun i _ => ?_
          rw [div_pow]
      _ = 1 := by rw [← hsq, div_self hne]
  have hrfl : l2norm (fun i => w i / l2norm w) =
      Real.sqrt (∑ i, (w i / l2norm w) ^ 2) := rfl
  rw [hrfl, hdiv, Real.sqrt_one]

/-- C7: `receive` pushes the current vector onto the bounded history (plain
append below capacity, evicting the oldest entry at capacity 4, the pushed
entry always last), then forms `vector + alpha * payload.vector`; when the L2
norm of that sum exceeds the `1e-8` epsilon the stored vector is the sum
rescaled to exactly unit norm, otherwise the sum is stored unnormalised; the
reception counter grows by exactly one and the pending slot and pass counter
are untouched. -/
theorem receive_updates_history_vector_and_count (n : Nat)
    (s : EmbeddingState n) (p : DeltaPayload n) (alpha : ℝ) :
    (receive_delta s p alpha).deltas_received = s.deltas_received + 1 ∧
    (receive_delta s p alpha).history.getLast? = some s.vector ∧
    (s.history.length < 4 →
      (receive_delta s p alpha).history = s.history ++ [s.vector]) ∧
    (s.history.length = 4 →
      (receive_delta s p alpha).history = s.history.tail ++ [s.vector]) ∧
    (l2norm (fun i => s.vector i + alpha * p.vector i) > 1e-8 →
      l2norm (receive_delta s p alpha).vector = 1) ∧
    (¬ l2norm (fun i => s.vector i + alpha * p.vector i) > 1e-8 →
      (receive_delta s p alpha).vector = fun i => s.vector i + alpha * p.vector i) ∧
    (receive_delta s p alpha).pending_delta = s.pending_delta ∧
    (receive_delta s p alpha).deltas_passed = s.deltas_passed := by
  refine ⟨rfl, pushHistory_getLast s.history s.vector, ?_, ?_, ?_, ?_, rfl, rfl⟩
  · intro hlen
    show pushHistory s.history s.vector = _
    unfold pushHistory
    rw [if_neg (by simp; omega)]
  · intro hlen
    show pushHistory s.history s.vector = _
    unfold pushHistory
    rw [if_pos (by simp [hlen])]
    cases hh : s.history with
    | nil => rw [hh] at hlen; simp at hlen
    | cons a t => simp
  · intro hnrm
    show l2norm (if _ > 1e-8 then _ else _) = 1
    rw [if_pos hnrm]
    exact l2norm_unit_of_pos _ (lt_trans (by norm_num) hnrm)
  · intro hnrm
    show (if _ > 1e-8 then _ else _) = _
    rw [if_neg hnrm]

/-- Witness for C7: receiving a zero payload into a fresh cell takes the
below-capacity history branch and the below-epsilon no-normalisation branch. -/
theorem receive_updates_history_vector_and_count_example :
    ((initState 1 0).history.length < 4 ∧
      (receive_delta (initState 1 0) ⟨"w", fun _ => 0, 0, 0⟩ 0.1).history =
        (initState 1 0).history ++ [(initState 1 0).vector]) ∧
    (¬ l2norm (fun i : Fin 1 =>
          (initState 1 0).vector i + 0.1 * (⟨"w", fun _ => 0, 0, 0⟩ :
            DeltaPayload 1).vector i) > 1e-8 ∧
      (receive_delta (initState 1 0) ⟨"w", fun _ => 0, 0, 0⟩ 0.1).vector =
        fun i => (initState 1 0).vector i + 0.1 * (⟨"w", fun _ => 0, 0, 0⟩ :
          DeltaPayload 1).vector i) := by
  have hlen : (initState 1 0).history.length < 4 := by simp [initState]
  have hnrm : ¬ l2norm (fun i : Fin 1 =>
      (initState 1 0).vector i + 0.1 * (⟨"w", fun _ => 0, 0, 0⟩ :
        DeltaPayload 1).vector i) > 1e-8 := by
    have : l2norm (fun i : Fin 1 =>
        (initState 1 0).vector i + 0.1 * (⟨"w", fun _ => 0, 0, 0⟩ :
          DeltaPayload 1).vector i) = 0 := by
      unfold l2norm
      simp [initState]
    rw [this]; norm_num
  exact ⟨⟨hlen,
      (receive_updates_history_vector_and_count 1 (initState 1 0)
        ⟨"w", fun _ => 0, 0, 0⟩ 0.1).2.2.1 hlen⟩,
    ⟨hnrm,
      (receive_updates_history_vector_and_count 1 (initState 1 0)
        ⟨"w", fun _ => 0, 0, 0⟩ 0.1).2.2.2.2.2.1 hnrm⟩⟩

theorem receive_delta_eval {n : Nat} (s : EmbeddingState n) (p : DeltaPayload n)
    (alpha c : ℝ) (w : Vec n)
    (hw : (fun i => s.vector i + alpha * p.vector i) = w)
    (hn : l2norm w = c) (hc : c > 1e-8) :
    (receive_delta s p alpha).vector = fun i => w i / c := by
  show (if l2norm (fun i => s.vector i + alpha * p.vector i) > 1e-8
      then (fun i => (fun j => s.vector j + alpha * p.vector j) i /
        l2norm (fun j => s.vector j + alpha * p.vector j))
      else fun i => s.vector i + alpha * p.vector i) = fun i => w i / c
  rw [hw, hn, if_pos hc]

theorem l2norm_zero {n : Nat} : l2norm (fun _ : Fin n => (0 : ℝ)) = 0 := by
  unfold l2norm
  simp

theorem l2norm_const1 (c : ℝ) (hc : 0 ≤ c) :
    l2norm (fun _ : Fin 1 => c) = c := by
  unfold l2norm
  rw [Fin.sum_univ_one]
  exact Real.sqrt_sq hc

theorem cosineSim_zero_right {n : Nat} (v : Vec n) :
    cosineSim v (fun _ => 0) = 0 := by
  unfold cosineSim
  rw [if_pos (Or.inr (by rw [l2norm_zero]; norm_num))]

theorem cosineSim_one_one :
    cosineSim (fun _ : Fin 1 => (1 : ℝ)) (fun _ : Fin 1 => (1 : ℝ)) = 1 := by
  unfold cosineSim
  rw [l2norm_const1 1 (by norm_num), if_neg (by norm_num)]
  unfold dot
  rw [Fin.sum_univ_one]
  norm_num

theorem exState1_vector :
    (receive_delta (initState 1 0) exPayload 1).vector = fun _ : Fin 1 => (1 : ℝ) := by
  have hw : (fun i : Fin 1 => (initState 1 0).vector i + 1 * exPayload.vector i) =
      fun _ : Fin 1 => (1 : ℝ) := by
    funext i
    show (0 : ℝ) + 1 * 1 = 1
    norm_num
  rw [receive_delta_eval (initState 1 0) exPayload 1 1 (fun _ => 1) hw
    (l2norm_const1 1 (by norm_num)) (by norm_num)]
  funext i
  show (1 : ℝ) / 1 = 1
  norm_num

theorem exState1_history :
    (receive_delta (initState 1 0) exPayload 1).history =
      [fun _ : Fin 1 => (0 : ℝ), fun _ : Fin 1 => (0 : ℝ)] := by
  show pushHistory (initState 1 0).history (initState 1 0).vector = _
  unfold pushHistory
  rw [if_neg (by simp [initState])]
  rfl

theorem exState2_vector : exState2.vector = fun _ : Fin 1 => (1 : ℝ) := by
  have hw : (fun i : Fin 1 =>
      (receive_delta (initState 1 0) exPayload 1).vector i + 1 * exPayload.vector i) =
      fun _ : Fin 1 => (2 : ℝ) := by
    funext i
    rw [exState1_vector]
    show (1 : ℝ) + 1 * 1 = 2
    norm_num
  rw [show exState2.vector = (receive_delta (receive_delta (initState 1 0) exPayload 1)
      exPayload 1).vector from rfl]
  rw [receive_delta_eval _ exPayload 1 2 (fun _ => 2) hw
    (l2norm_const1 2 (by norm_num)) (by norm_num)]
  funext i
  show (2 : ℝ) / 2 = 1
  norm_num

theorem exState2_history :
    exState2.history =
      [fun _ : Fin 1 => (0 : ℝ), fun _ : Fin 1 => (0 : ℝ), fun _ : Fin 1 => (1 : ℝ)] := by
  show pushHistory (receive_delta (initState 1 0) exPayload 1).history
      (receive_delta (initState 1 0) exPayload 1).vector = _
  rw [exState1_history, exState1_vector]
  unfold pushHistory
  rw [if_neg (by simp)]
  rfl

/-- C8 counterexample: in the reachable state `exState2` the most recently
pushed history entry is the unit vector `1` and the cosine similarity of the
current vector with it is `1`, yet `cosine_with_previous` returns `0`, because
the code reads `history[-2]` (here the zero vector) rather than the most
recently pushed entry `history[-1]`. -/
theorem cosine_with_previous_skips_last_pushed :
    exState2.history.getLast? = some (fun _ : Fin 1 => (1 : ℝ)) ∧
    cosineSim exState2.vector (fun _ : Fin 1 => (1 : ℝ)) = 1 ∧
    cosine_with_previous exState2 = 0 := by
  refine ⟨?_, ?_, ?_⟩
  · rw [exState2_history]
    rfl
  · rw [exState2_vector]
    exact cosineSim_one_one
  · unfold cosine_with_previous
    rw [exState2_history]
    rw [if_neg (by simp)]
    show cosineSim exState2.vector (fun _ : Fin 1 => (0 : ℝ)) = 0
    exact cosineSim_zero_right _

/-- C8 amended: `similarityToPrevious()` returns the cosine similarity between
the current vector and the second-most-recently pushed history entry (the
entry just before the most recently pushed one, `history[-2]`), and returns
exactly `1.0` whenever the history holds fewer than two entries. -/
theorem cosine_with_previous_uses_second_last (n : Nat) (s : EmbeddingState n) :
    (s.history.length < 2 → cosine_with_previous s = 1) ∧
    (∀ v : Vec n, s.history.dropLast.getLast? = some v →
      cosine_with_previous s = cosineSim s.vector v) := by
  constructor
  · intro h
    unfold cosine_with_previous
    rw [if_pos h]
  · intro v hv
    have hlen : 2 ≤ s.history.length := by
      by_contra hlt
      push_neg at hlt
      match hh : s.history, hlt with
      | [], _ => rw [hh] at hv; simp at hv
      | [a], _ => rw [hh] at hv; simp at hv
      | a :: b :: t, hlt2 => simp at hlt2; omega
    have hidx : s.history.dropLast.getLast? = s.history[s.history.length - 2]? := by
      rw [List.getLast?_eq_getElem?, List.getElem?_dropLast, List.length_dropLast]
      rw [if_pos (by omega)]
      rw [Nat.sub_sub]
    rw [hidx] at hv
    unfold cosine_with_previous
    rw [if_neg (by omega)]
    rw [List.getD_eq_getElem?_getD, hv]
    rfl

/-- Witness for the amended C8: on `exState2` the entry preceding the most
recently pushed one is the zero vector and the function returns the cosine
similarity with it. -/
theorem cosine_with_previous_uses_second_last_example :
    exState2.history.dropLast.getLast? = some (fun _ : Fin 1 => (0 : ℝ)) ∧
    cosine_with_previous exState2 = cosineSim exState2.vector (fun _ : Fin 1 => (0 : ℝ)) := by
  have hd : exState2.history.dropLast.getLast? = some (fun _ : Fin 1 => (0 : ℝ)) := by
    rw [exState2_history]
    rfl
  exact ⟨hd, (cosine_with_previous_uses_second_last 1 exState2).2 _ hd⟩

/-- C9 counterexample: for the out-of-range toggle command `x = 8, y = 0` the
handler completes normally and the complete result surfaced to the command
submitter is the unchanged grid together with the response `none`. No
`InvalidCoordinate` error value exists anywhere in this code path, so the
command is silently ignored rather than rejected with an error. -/
theorem toggle_out_of_range_returns_no_error :
    handle_toggle_cell (fun _ _ => false) (some 8) (some 0) =
      ((fun _ _ => false), none) := by
  show (if (0 : Int) ≤ 8 ∧ (8 : Int) < 8 ∧ (0 : Int) ≤ 0 ∧ (0 : Int) < 8 then
      ((fun y2 x2 => if y2 = (0 : Int).toNat ∧ x2 = (8 : Int).toNat then
          !(fun _ _ => false : Grid) y2 x2 else (fun _ _ => false : Grid) y2 x2), none)
    else ((fun _ _ => false : Grid), none)) = ((fun _ _ => false : Grid), none)
  rw [if_neg (by norm_num)]

/-- C9 amended: a toggle command whose coordinate is missing or outside the
hardcoded bounds `0 <= v < 8` is silently ignored: the grid is left unchanged
(the coordinate is never wrapped modulo the size) and no error or response of
any kind is surfaced to the submitter, so the tick loop simply continues. -/
theorem toggle_out_of_range_is_silent_noop (g : Grid) (x y : Int)
    (h : ¬(0 ≤ x ∧ x < 8 ∧ 0 ≤ y ∧ y < 8)) :
    handle_toggle_cell g (some x) (some y) = (g, none) := by
  show (if 0 ≤ x ∧ x < 8 ∧ 0 ≤ y ∧ y < 8 then
      ((fun y2 x2 => if y2 = y.toNat ∧ x2 = x.toNat then !g y2 x2 else g y2 x2), none)
    else (g, none)) = (g, none)
  rw [if_neg h]

/-- Witness for the amended C9 at the concrete out-of-range input
`x = -1, y = 3` on the all-live grid. -/
theorem toggle_out_of_range_is_silent_noop_example :
    ¬((0 : Int) ≤ -1 ∧ (-1 : Int) < 8 ∧ (0 : Int) ≤ 3 ∧ (3 : Int) < 8) ∧
    handle_toggle_cell (fun _ _ => true) (some (-1)) (some 3) =
      ((fun _ _ => true), none) :=
  ⟨by norm_num, toggle_out_of_range_is_silent_noop (fun _ _ => true) (-1) 3 (by norm_num)⟩

theorem argmaxAux_spec (xs : List ℝ) : ∀ (i bi : Nat) (bv : ℝ),
    (argmaxAux xs i bi bv = bi ∧ ∀ j, j < xs.length → xs.getD j 0 ≤ bv) ∨
    (∃ j, j < xs.length ∧ argmaxAux xs i bi bv = i + j ∧ bv < xs.getD j 0 ∧
      (∀ k, k < xs.length → xs.getD k 0 ≤ xs.getD j 0) ∧
      (∀ k, k < j → xs.getD k 0 ≤ bv ∨ xs.getD k 0 < xs.getD j 0)) := by
  induction xs with
  | nil =>
    intro i bi bv
    left
    exact ⟨rfl, fun j h => by simp at h⟩
  | cons v rest ih =>
    intro i bi bv
    by_cases hbv : bv < v
    · rw [show argmaxAux (v :: rest) i bi bv = argmaxAux rest (i + 1) i v from by
        rw [argmaxAux, if_pos hbv]]
      rcases ih (i + 1) i v with ⟨h1, h2⟩ | ⟨j, hj, hr, hbvj, hmax, hfirst⟩
      · right
        refine ⟨0, by simp, by rw [h1]; omega, hbv, ?_, fun k hk => absurd hk (by omega)⟩
        intro k hk
        match k with
        | 0 => exact le_refl _
        | k + 1 => exact h2 k (by simpa using hk)
      · right
        refine ⟨j + 1, by simpa using hj, by rw [hr]; omega,
          lt_trans hbv hbvj, ?_, ?_⟩
        · intro k hk
          match k with
          | 0 => exact le_of_lt hbvj
          | k + 1 => exact hmax k (by simpa using hk)
        · intro k hk
          match k with
          | 0 => exact Or.inr hbvj
          | k + 1 =>
            rcases hfirst k (by omega) with hle | hlt
            · exact Or.inr (lt_of_le_of_lt hle hbvj)
            · exact Or.inr hlt
    · rw [show argmaxAux (v :: rest) i bi bv = argmaxAux rest (i + 1) bi bv from by
        rw [argmaxAux, if_neg hbv]]
      rcases ih (i + 1) bi bv with ⟨h1, h2⟩ | ⟨j, hj, hr, hbvj, hmax, hfirst⟩
      · left
        refine ⟨h1, ?_⟩
        intro k hk
        match k with
        | 0 => exact le_of_not_lt hbv
        | k + 1 => exact h2 k (by simpa using hk)
      · right
        refine ⟨j + 1, by simpa using hj, by rw [hr]; omega, hbvj, ?_, ?_⟩
        · intro k hk
          match k with
          | 0 => exact le_of_lt (lt_of_le_of_lt (le_of_not_lt hbv) hbvj)
          | k + 1 => exact hmax k (by simpa using hk)
        · intro k hk
          match k with
          | 0 => exact Or.inl (le_of_not_lt hbv)
          | k + 1 => exact hfirst k (by omega)

theorem argmaxIdx_spec (l : List ℝ) (hl : l ≠ []) :
    argmaxIdx l < l.length ∧
    (∀ k, k < l.length → l.getD k 0 ≤ l.getD (argmaxIdx l) 0) ∧
    (∀ k, k < argmaxIdx l → l.getD k 0 < l.getD (argmaxIdx l) 0) := by
  match l with
  | [] => exact absurd rfl hl
  | x :: xs =>
    rw [show argmaxIdx (x :: xs) = argmaxAux xs 1 0 x from rfl]
    rcases argmaxAux_spec xs 1 0 x with ⟨h1, h2⟩ | ⟨j, hj, hr, hbvj, hmax, hfirst⟩
    · rw [h1]
      refine ⟨by simp, ?_, fun k hk => absurd hk (by omega)⟩
      intro k hk
      match k with
      | 0 => exact le_refl _
      | k + 1 => exact h2 k (by simpa using hk)
    · rw [hr, show 1 + j = j + 1 from by omega]
      have hget : (x :: xs).getD (j + 1) 0 = xs.getD j 0 := rfl
      refine ⟨by simpa using hj, ?_, ?_⟩
      · intro k hk
        rw [hget]
        match k with
        | 0 => exact le_of_lt hbvj
        | k + 1 => exact hmax k (by simpa using hk)
      · intro k hk
        rw [hget]
        match k with
        | 0 => exact hbvj
        | k + 1 =>
          rcases hfirst k (by omega) with hle | hlt
          · exact lt_of_le_of_lt hle hbvj
          · exact hlt

/-- C6: `route_delta` enumerates the 8 wrapped Moore neighbours of the source
cell; each candidate is scored `alpha_cosine * cosineSim(candidate.vector,
payload.vector) + alpha_energy * energy` with the fixed neutral energy `0.5`
for every candidate when no energy field is supplied, the weights being `0.7`
and `0.3` on a freshly constructed grid; the chosen neighbour attains the
maximal score and every earlier candidate scores strictly below it (ties are
broken by the lowest enumeration index, `np.argmax` returning the first
maximum); and the second returned component is the cosine similarity between
the current vector of the chosen neighbour and the payload. -/
theorem route_delta_argmax_first_of_eight (n : Nat) (g : EmbeddingGrid n)
    (i : Nat) (p : DeltaPayload n) (efield : Option (Nat → Nat → ℝ)) :
    (embNeighbors g.size i).length = 8 ∧
    (routeScores g p none (embNeighbors g.size i) =
      (embNeighbors g.size i).map fun j =>
        g.alpha_cosine * cosineSim (g.states j).vector p.vector +
          g.alpha_energy * 0.5) ∧
    (∃ b, b < 8 ∧
      (route_delta g i p efield).1 = (embNeighbors g.size i).getD b 0 ∧
      (route_delta g i p efield).2 =
        cosineSim (g.states ((embNeighbors g.size i).getD b 0)).vector p.vector ∧
      (∀ k, k < 8 →
        (routeScores g p efield (embNeighbors g.size i)).getD k 0 ≤
          (routeScores g p efield (embNeighbors g.size i)).getD b 0) ∧
      (∀ k, k < b →
        (routeScores g p efield (embNeighbors g.size i)).getD k 0 <
          (routeScores g p efield (embNeighbors g.size i)).getD b 0)) ∧
    ((initGrid n g.size).alpha_cosine = 0.7 ∧
      (initGrid n g.size).alpha_energy = 0.3) := by
  have hlen : (embNeighbors g.size i).length = 8 := rfl
  have hslen : (routeScores g p efield (embNeighbors g.size i)).length = 8 := by
    rw [routeScores, List.length_map, hlen]
  have hne : routeScores g p efield (embNeighbors g.size i) ≠ [] :=
    List.ne_nil_of_length_pos (by rw [hslen]; norm_num)
  obtain ⟨hb, hmax, hfirst⟩ :=
    argmaxIdx_spec (routeScores g p efield (embNeighbors g.size i)) hne
  rw [hslen] at hb hmax
  refine ⟨hlen, rfl, ⟨argmaxIdx (routeScores g p efield (embNeighbors g.size i)),
    hb, rfl, rfl, hmax, hfirst⟩, rfl, rfl⟩

/-- Witness for C6 at a fresh 3x3 grid, payload `exPayload`, no energy
field. -/
theorem route_delta_argmax_first_of_eight_example :
    (embNeighbors (initGrid 1 3).size 4).length = 8 ∧
    (routeScores (initGrid 1 3) exPayload none (embNeighbors (initGrid 1 3).size 4) =
      (embNeighbors (initGrid 1 3).size 4).map fun j =>
        (initGrid 1 3).alpha_cosine *
            cosineSim ((initGrid 1 3).states j).vector exPayload.vector +
          (initGrid 1 3).alpha_energy * 0.5) :=
  ⟨(route_delta_argmax_first_of_eight 1 (initGrid 1 3) 4 exPayload none).1,
    (route_delta_argmax_first_of_eight 1 (initGrid 1 3) 4 exPayload none).2.1⟩

theorem route_delta_mem {n : Nat} (g : EmbeddingGrid n) (i : Nat)
    (p : DeltaPayload n) (efield : Option (Nat → Nat → ℝ)) :
    (route_delta g i p efield).1 ∈ embNeighbors g.size i := by
  have hslen : (routeScores g p efield (embNeighbors g.size i)).length = 8 := by
    rw [routeScores, List.length_map]
    rfl
  have hne : routeScores g p efield (embNeighbors g.size i) ≠ [] :=
    List.ne_nil_of_length_pos (by rw [hslen]; norm_num)
  have hb := (argmaxIdx_spec (routeScores g p efield (embNeighbors g.size i)) hne).1
  rw [hslen] at hb
  show (embNeighbors g.size i).getD
      (argmaxIdx (routeScores g p efield (embNeighbors g.size i))) 0 ∈
    embNeighbors g.size i
  have hb2 : argmaxIdx (routeScores g p efield (embNeighbors g.size i)) <
      (embNeighbors g.size i).length := hb
  rw [List.getD_eq_getElem?_getD, List.getElem?_eq_getElem hb2]
  exact List.getElem_mem hb2

theorem stepLoop_cons {n : Nat} (efield : Option (Nat → Nat → ℝ))
    (g : EmbeddingGrid n) (i : Nat) (rest : List Nat) :
    stepLoop efield g (i :: rest) =
      match (g.states i).pending_delta with
      | none => stepLoop efield
          { g with states := fun j => if j = i then (pass_delta (g.states i)).2
              else g.states j } rest
      | some payload =>
          let g1 : EmbeddingGrid n :=
            { g with states := fun j => if j = i then (pass_delta (g.states i)).2
                else g.states j }
          let r := route_delta g1 i payload efield
          let toState := receive_delta (g1.states r.1) payload 0.1
          let g2 : EmbeddingGrid n :=
            { g1 with states := fun j => if j = r.1 then toState else g1.states j }
          let res := stepLoop efield g2 rest
          (⟨g.tick, i, r.1, payload.id, payload.l2_norm, r.2, none⟩ :: res.1, res.2) := by
  rfl

theorem stepLoop_spec (n : Nat) (efield : Option (Nat → Nat → ℝ)) :
    ∀ (pend : List Nat) (g : EmbeddingGrid n),
    (∀ i ∈ pend, ((g.states i).pending_delta).isSome = true) →
    pend.Nodup →
    ((stepLoop efield g pend).1.map PassEvent.from_idx = pend) ∧
    (∀ j, ((stepLoop efield g pend).2.states j).pending_delta =
      if j ∈ pend then none else (g.states j).pending_delta) ∧
    (∀ e ∈ (stepLoop efield g pend).1,
      e.to_idx ∈ embNeighbors g.size e.from_idx ∧ e.tick = g.tick ∧
      ∃ q, (g.states e.from_idx).pending_delta = some q ∧
        e.payload_id = q.id ∧ e.payload_norm = q.l2_norm) ∧
    (stepLoop efield g pend).2.size = g.size ∧
    (stepLoop efield g pend).2.tick = g.tick ∧
    (stepLoop efield g pend).2.pass_events = g.pass_events := by
  intro pend
  induction pend with
  | nil =>
    intro g _ _
    refine ⟨rfl, fun j => by simp [stepLoop], fun e he => absurd he (by simp [stepLoop]),
      rfl, rfl, rfl⟩
  | cons i rest ih =>
    intro g hpend hnd
    obtain ⟨q, hq⟩ := Option.isSome_iff_exists.mp (hpend i (List.mem_cons_self i rest))
    rw [List.nodup_cons] at hnd
    obtain ⟨hni, hndr⟩ := hnd
    have hred := stepLoop_cons efield g i rest
    rw [hq] at hred
    simp only at hred
    set g1 : EmbeddingGrid n :=
      { g with states := fun j => if j = i then (pass_delta (g.states i)).2
          else g.states j } with hg1
    set r := route_delta g1 i q efield with hr
    set toState := receive_delta (g1.states r.1) q 0.1 with htoState
    set g2 : EmbeddingGrid n :=
      { g1 with states := fun j => if j = r.1 then toState else g1.states j } with hg2
    have hg2pending : ∀ j, (g2.states j).pending_delta =
        if j = i then none else (g.states j).pending_delta := by
      intro j
      show (if j = r.1 then toState else g1.states j).pending_delta = _
      by_cases hjr : j = r.1
      · rw [if_pos hjr]
        have : toState.pending_delta = (g1.states r.1).pending_delta := rfl
        rw [this, ← hjr]
        show (if j = i then (pass_delta (g.states i)).2 else g.states j).pending_delta = _
        by_cases hji : j = i
        · rw [if_pos hji, if_pos hji]
          rfl
        · rw [if_neg hji, if_neg hji]
      · rw [if_neg hjr]
        show (if j = i then (pass_delta (g.states i)).2 else g.states j).pending_delta = _
        by_cases hji : j = i
        · rw [if_pos hji, if_pos hji]
          rfl
        · rw [if_neg hji, if_neg hji]
    have hg2size : g2.size = g.size := rfl
    have hg2tick : g2.tick = g.tick := rfl
    have hg2events : g2.pass_events = g.pass_events := rfl
    have hrest : ∀ j ∈ rest, ((g2.states j).pending_delta).isSome = true := by
      intro j hj
      rw [hg2pending j, if_neg (fun hji : j = i => hni (hji ▸ hj))]
      exact hpend j (List.mem_cons_of_mem i hj)
    obtain ⟨ihmap, ihpend, ihev, ihsize, ihtick, ihlog⟩ := ih g2 hrest hndr
    rw [hred]
    refine ⟨?_, ?_, ?_, ihsize, ihtick, ihlog⟩
    · show PassEvent.from_idx ⟨g.tick, i, r.1, q.id, q.l2_norm, r.2, none⟩ ::
        (stepLoop efield g2 rest).1.map PassEvent.from_idx = i :: rest
      rw [ihmap]
    · intro j
      rw [ihpend j, hg2pending j]
      by_cases hjr : j ∈ rest
      · rw [if_pos hjr, if_pos (List.mem_cons_of_mem i hjr)]
      · rw [if_neg hjr]
        by_cases hji : j = i
        · rw [if_pos hji, if_pos (by rw [hji]; exact List.mem_cons_self i rest)]
        · rw [if_neg hji, if_neg (by simp [hji, hjr])]
    · intro e he
      rcases List.mem_cons.mp he with hev | hev
      · subst hev
        refine ⟨route_delta_mem g1 i q efield, rfl, q, hq, rfl, rfl⟩
      · obtain ⟨hto, htick, q2, hq2, hid, hnorm⟩ := ihev e hev
        have hfr : e.from_idx ∈ rest := by
          rw [← ihmap]
          exact List.mem_map_of_mem PassEvent.from_idx hev
        have hne : e.from_idx ≠ i := fun hji => hni (hji ▸ hfr)
        rw [hg2pending e.from_idx, if_neg hne] at hq2
        exact ⟨hg2size ▸ hto, hg2tick ▸ htick, q2, hq2, hid, hnorm⟩

/-- C5: `EmbeddingGrid.step` snapshots the cells holding a pending payload
before any mutation (`pendingCells`, exactly the in-range cells with a pending
delta, in strictly increasing index order) and produces exactly one
`PassEvent` per snapshotted cell, in that order (the from-indices of the batch
are exactly the snapshot). Each event delivers the passed payload (matching id
and norm of the pending delta of its source at tick start) to one Moore
neighbour of its source. After the step no cell holds a pending payload that
it did not hold before minus the processed ones: every snapshotted cell is
cleared and every other cell keeps its (necessarily empty, for in-range cells)
pending slot, so a payload delivered during the step is never re-routed within
the same step and no payload remains routable after its single hop. The batch
is appended to the pass-event log and the tick advances by one. -/
theorem embedding_step_one_hop_per_pending (n : Nat) (g : EmbeddingGrid n)
    (efield : Option (Nat → Nat → ℝ)) :
    (∀ i, i ∈ pendingCells g ↔
      i < g.size * g.size ∧ ((g.states i).pending_delta).isSome = true) ∧
    List.Pairwise (· < ·) (pendingCells g) ∧
    ((embStep g efield).1.map PassEvent.from_idx = pendingCells g) ∧
    (∀ j, ((embStep g efield).2.states j).pending_delta =
      if j ∈ pendingCells g then none else (g.states j).pending_delta) ∧
    (∀ e ∈ (embStep g efield).1,
      e.to_idx ∈ embNeighbors g.size e.from_idx ∧ e.tick = g.tick ∧
      ∃ q, (g.states e.from_idx).pending_delta = some q ∧
        e.payload_id = q.id ∧ e.payload_norm = q.l2_norm) ∧
    ((embStep g efield).2.pass_events = g.pass_events ++ (embStep g efield).1) ∧
    ((embStep g efield).2.tick = g.tick + 1) := by
  have hmem : ∀ i, i ∈ pendingCells g ↔
      i < g.size * g.size ∧ ((g.states i).pending_delta).isSome = true := by
    intro i
    simp [pendingCells, List.mem_filter, List.mem_range]
  have hpw : List.Pairwise (· < ·) (pendingCells g) :=
    List.Pairwise.filter _ (List.pairwise_lt_range _)
  have hnd : (pendingCells g).Nodup := hpw.imp Nat.ne_of_lt
  have hsome : ∀ i ∈ pendingCells g, ((g.states i).pending_delta).isSome = true :=
    fun i hi => ((hmem i).mp hi).2
  obtain ⟨hmap, hpend, hev, _, htick, hlog⟩ :=
    stepLoop_spec n efield (pendingCells g) g hsome hnd
  refine ⟨hmem, hpw, hmap, hpend, hev, ?_, ?_⟩
  · show (stepLoop efield g (pendingCells g)).2.pass_events ++
        (stepLoop efield g (pendingCells g)).1 =
      g.pass_events ++ (stepLoop efield g (pendingCells g)).1
    rw [hlog]
  · show (stepLoop efield g (pendingCells g)).2.tick + 1 = g.tick + 1
    rw [htick]

/-- Witness for C5 on a fresh 3x3 grid: the step advances the tick and its
batch enumerates exactly the (empty) pending snapshot. -/
theorem embedding_step_one_hop_per_pending_example :
    (embStep (initGrid 1 3) none).2.tick = (initGrid 1 3).tick + 1 ∧
    (embStep (initGrid 1 3) none).1.map PassEvent.from_idx =
      pendingCells (initGrid 1 3) :=
  ⟨(embedding_step_one_hop_per_pending 1 (initGrid 1 3) none).2.2.2.2.2.2,
    (embedding_step_one_hop_per_pending 1 (initGrid 1 3) none).2.2.1⟩

end StrixSwarm
